import Mathlib

/-!
Verification development for the bgpsim repository (file src/bgpsim.py).

The Python module implements a Gao-Rexford BGP route-propagation simulator.
This file gives a shallow embedding of its data model and operations:

* `Relationship`, `PathPref` mirror the two enums (values via `val`).
* Python dictionaries keyed by AS number appear either as association
  lists (`List (Nat × _)`, insertion-ordered, looked up with `alookup`,
  mirroring `dict` insertion-order semantics) or, for the per-inference
  result maps (whose iteration order is never observed), as total
  functions with the defaultdict default.
* `WorkQueue`, `NodeAccouncementData` (the source's spelling), `ASGraph`,
  `Announcement` mirror the classes; the networkx digraph is embedded as
  an insertion-ordered adjacency association list, which is how the code
  observes it (`g[u]` iteration and membership, edge-attribute lookup).
* Callbacks cannot be embedded as arbitrary Python functions; instead the
  engine emits the `Event` trace of the callback invocations it would
  perform (callbacks must not mutate engine state, per the module docs).
* The `while` drain loop of `infer_paths` is embedded with explicit fuel;
  `fuel_ok = false` in a result marks a run that exhausted its fuel, so
  results with `fuel_ok = true` coincide with the Python fixpoint.
* Python `assert` statements (sanity checks on engine-internal reachable
  states) are not modelled as failures; all other error paths (`raise
  ValueError`) are modelled with `Except`.
-/

set_option autoImplicit false

namespace BGPSim

/-- Association-list lookup with Nat keys, matching Python dict lookup
(first binding wins; Python dicts cannot hold duplicate keys). -/
def alookup {α : Type} : List (Nat × α) → Nat → Option α
  | [], _ => none
  | p :: rest, k => if p.1 = k then some p.2 else alookup rest k

/-- Relationship enum: C2P = 1, P2P = 0, P2C = -1. -/
inductive Relationship where
  | C2P
  | P2P
  | P2C
deriving DecidableEq, Repr

/-- Numeric value of a Relationship, as in the Python IntEnum. -/
def Relationship.val : Relationship → Int
  | .C2P => 1
  | .P2P => 0
  | .P2C => -1

/-- Relationship in the opposite direction of an edge (negated value). -/
def Relationship.reversed : Relationship → Relationship
  | .C2P => .P2C
  | .P2P => .P2P
  | .P2C => .C2P

/-- PathPref enum: CUSTOMER = 3, PEER = 2, PROVIDER = 1, UNKNOWN = 0. -/
inductive PathPref where
  | CUSTOMER
  | PEER
  | PROVIDER
  | UNKNOWN
deriving DecidableEq, Repr

/-- Numeric value of a PathPref, as in the Python IntEnum. -/
def PathPref.val : PathPref → Nat
  | .CUSTOMER => 3
  | .PEER => 2
  | .PROVIDER => 1
  | .UNKNOWN => 0

abbrev Edge := Nat × Nat

/-- One bucket of the work queue: a depth-to-edges Python dict (insertion
ordered association list; `defaultdict(list)`). -/
abbrev Bucket := List (Nat × List Edge)

/-- Read a depth entry of a bucket (defaultdict: missing key reads as []). -/
def bucketGet (b : Bucket) (d : Nat) : List Edge := (alookup b d).getD []

/-- Write a depth entry of a bucket (replace in place, else append new key,
matching dict insertion-order update semantics). -/
def bucketSet (b : Bucket) (d : Nat) (v : List Edge) : Bucket :=
  if (alookup b d).isSome then b.map (fun p => if p.1 = d then (d, v) else p)
  else b ++ [(d, v)]

/-- Delete a depth key of a bucket (`del` on the dict). -/
def bucketErase (b : Bucket) (d : Nat) : Bucket := b.filter (fun p => ! decide (p.1 = d))

/-- The depth keys of a bucket. -/
def bucketKeys (b : Bucket) : List Nat := b.map Prod.fst

/-- Minimum of a list of Nats, as Python `min` (none on empty input). -/
def listMin : List Nat → Option Nat
  | [] => none
  | x :: xs =>
    match listMin xs with
    | none => some x
    | some m => some (Nat.min x m)

/-- Python `min(dict)`: minimum key of an association list. -/
def minKeyOf {α : Type} (l : List (Nat × α)) : Option Nat := listMin (l.map Prod.fst)

/-- The WorkQueue class: `pref2depth2edge`, one bucket per real preference. -/
structure WorkQueue where
  customer : Bucket
  peer : Bucket
  provider : Bucket
deriving DecidableEq, Repr

/-- A fresh WorkQueue (all buckets empty), as built in `WorkQueue.__init__`. -/
def WorkQueue.empty : WorkQueue := ⟨[], [], []⟩

/-- Look up `pref2depth2edge[pref]`.  The Python dict has exactly the three
real preferences as keys; `UNKNOWN` is never used as an index. -/
def WorkQueue.bucket (wq : WorkQueue) : PathPref → Bucket
  | .CUSTOMER => wq.customer
  | .PEER => wq.peer
  | .PROVIDER => wq.provider
  | .UNKNOWN => []

/-- Replace `pref2depth2edge[pref]`. -/
def WorkQueue.setBucket (wq : WorkQueue) : PathPref → Bucket → WorkQueue
  | .CUSTOMER, b => { wq with customer := b }
  | .PEER, b => { wq with peer := b }
  | .PROVIDER, b => { wq with provider := b }
  | .UNKNOWN, _ => wq

/-- The Announcement dataclass: `source2neighbor2path`, a dict of dicts
(insertion-ordered association lists). -/
structure Announcement where
  source2neighbor2path : List (Nat × List (Nat × List Nat))
deriving DecidableEq, Repr

/-- Suffix announced by `src` towards `nei`:
`announce.source2neighbor2path[src][nei]`. -/
def annLookup (ann : Announcement) (src nei : Nat) : List Nat :=
  (alookup ((alookup ann.source2neighbor2path src).getD []) nei).getD []

/-- NodeAccouncementData (spelling as in the source): the per-inference
result.  `path_pref` and `best_paths` are defaultdicts (UNKNOWN / []),
`path_len` a plain dict (`none` = absent key). -/
structure NodeAccouncementData where
  path_pref : Nat → PathPref
  best_paths : Nat → List (List Nat)
  path_len : Nat → Option Nat

/-- A fresh NodeAccouncementData, as built by the dataclass defaults. -/
def NodeAccouncementData.empty : NodeAccouncementData :=
  ⟨fun _ => PathPref.UNKNOWN, fun _ => [], fun _ => none⟩

/-- An import filter at a node, with its `data` argument already applied:
`filter(exporter, paths, data)`. -/
abbrev ImportFilter := Nat → List (List Nat) → List (List Nat)

/-- The ASGraph class: networkx digraph (adjacency with per-edge
Relationship attribute), the graph-owned work queue and announcement
reference, and the per-node import filters. -/
structure ASGraph where
  adj : List (Nat × List (Nat × Relationship))
  workqueue : WorkQueue
  announce : Option Announcement
  filters : Nat → Option ImportFilter

/-- A fresh ASGraph, as built in `ASGraph.__init__`. -/
def ASGraph.new : ASGraph := ⟨[], WorkQueue.empty, none, fun _ => none⟩

/-- Successor list of a node: `self.g[u]` with edge attributes. -/
def ASGraph.succList (g : ASGraph) (u : Nat) : List (Nat × Relationship) :=
  (alookup g.adj u).getD []

/-- Neighbors of a node in adjacency (insertion) order. -/
def ASGraph.neighbors (g : ASGraph) (u : Nat) : List Nat :=
  (g.succList u).map Prod.fst

/-- EDGE_REL attribute of the directed edge u→v: `self.g[u][v][EDGE_REL]`. -/
def ASGraph.edgeRel (g : ASGraph) (u v : Nat) : Option Relationship :=
  alookup (g.succList u) v

/-- Python `u in self.g`. -/
def ASGraph.hasNode (g : ASGraph) (u : Nat) : Bool :=
  (alookup g.adj u).isSome

/-- Add a node with no import filter if absent (`add_node`). -/
def addNodeIfAbsent (g : ASGraph) (u : Nat) : ASGraph :=
  if g.hasNode u then g else { g with adj := g.adj ++ [(u, [])] }

/-- Set (or insert) the relationship attribute of edge →v in a successor
list (`add_edge` followed by attribute assignment). -/
def setRel (s : List (Nat × Relationship)) (v : Nat) (r : Relationship) :
    List (Nat × Relationship) :=
  if (alookup s v).isSome then s.map (fun q => if q.1 = v then (v, r) else q)
  else s ++ [(v, r)]

/-- Set (or insert) edge u→v with relationship r in the adjacency. -/
def adjSetEdge (adj : List (Nat × List (Nat × Relationship))) (u v : Nat) (r : Relationship) :
    List (Nat × List (Nat × Relationship)) :=
  adj.map (fun p => if p.1 = u then (u, setRel p.2 v r) else p)

/-- ASGraph.add_peering: add both nodes if absent, then the edge
source→sink with the given relationship and the reverse edge with the
reversed relationship. -/
def ASGraph.add_peering (g : ASGraph) (source sink : Nat) (relationship : Relationship) :
    ASGraph :=
  let g1 := addNodeIfAbsent g source
  let g2 := addNodeIfAbsent g1 sink
  let g3 : ASGraph := { g2 with adj := adjSetEdge g2.adj source sink relationship }
  { g3 with adj := adjSetEdge g3.adj sink source relationship.reversed }

/-- The comparison chain of `PathPref.from_relationship` on the numeric
value of the looked-up relationship: P2C(-1) ↦ CUSTOMER, P2P(0) ↦ PEER,
C2P(1) ↦ PROVIDER, anything else raises ValueError. -/
def from_relationship_val (v : Int) : Except String PathPref :=
  if v = -1 then Except.ok PathPref.CUSTOMER
  else if v = 0 then Except.ok PathPref.PEER
  else if v = 1 then Except.ok PathPref.PROVIDER
  else Except.error "Unsupported relationship"

/-- PathPref.from_relationship: the preference at `importer` of a path
arriving over exporter→importer.  Reads the relationship attribute of the
reverse edge `self.g[importer][exporter]` (KeyError, modelled as an error,
if that edge is absent). -/
def PathPref.from_relationship (g : ASGraph) (exporter importer : Nat) :
    Except String PathPref :=
  match g.edgeRel importer exporter with
  | some rel => from_relationship_val rel.val
  | none => Except.error "edge not in ASGraph"

/-- Total wrapper used where the engine calls `from_relationship` on edges
that exist by construction (UNKNOWN stands for the unreachable error). -/
def prefD (g : ASGraph) (exporter importer : Nat) : PathPref :=
  match PathPref.from_relationship g exporter importer with
  | Except.ok p => p
  | Except.error _ => PathPref.UNKNOWN

/-- Append one edge to `pref2depth2edge[p][depth]`. -/
def WorkQueue.push (wq : WorkQueue) (p : PathPref) (depth : Nat) (e : Edge) : WorkQueue :=
  let b := wq.bucket p
  wq.setBucket p (bucketSet b depth (bucketGet b depth ++ [e]))

/-- WorkQueue.add_work: for each neighbor of `exporter` (in adjacency
order), if the exporter's preference is CUSTOMER or the downstream
preference is PROVIDER, enqueue (exporter, downstream) in the downstream
preference's bucket at depth `path_len[exporter]`. -/
def WorkQueue.add_work (wq : WorkQueue) (g : ASGraph) (node_ann : NodeAccouncementData)
    (exporter : Nat) : WorkQueue :=
  let pref := node_ann.path_pref exporter
  (g.neighbors exporter).foldl
    (fun acc downstream =>
      let downstream_pref := prefD g exporter downstream
      if pref = PathPref.CUSTOMER ∨ downstream_pref = PathPref.PROVIDER then
        acc.push downstream_pref ((node_ann.path_len exporter).getD 0) (exporter, downstream)
      else acc)
    wq

/-- WorkQueue.get: if the bucket is empty return None; otherwise take the
minimum depth key, pop the last edge of its list, and delete the key if
its list became empty. -/
def WorkQueue.get (wq : WorkQueue) (pref : PathPref) : Option (Edge × WorkQueue) :=
  let b := wq.bucket pref
  match minKeyOf b with
  | none => none
  | some depth =>
    let l := bucketGet b depth
    match l.getLast? with
    | none => none
    | some edge =>
      let rest := l.dropLast
      let b2 := if rest.isEmpty then bucketErase b depth else bucketSet b depth rest
      some (edge, wq.setBucket pref b2)

/-- ASGraph.update_paths.  Returns the updated result state and True iff
`importer` just got its first paths.  The internal `assert`s of the Python
code (which hold on engine-reachable states) are not modelled. -/
def ASGraph.update_paths (g : ASGraph) (node_ann : NodeAccouncementData)
    (exporter importer : Nat) (announce_path : Option (List Nat)) :
    NodeAccouncementData × Bool :=
  let new_pref := prefD g exporter importer
  let current_pref := node_ann.path_pref importer
  if new_pref.val < current_pref.val then (node_ann, false)
  else
    let candidates :=
      match announce_path with
      | some ap => [exporter :: ap]
      | none =>
        ((node_ann.best_paths exporter).filter (fun p => ! p.contains importer)).map
          (fun p => exporter :: p)
    let new_paths :=
      match g.filters importer with
      | some f => f exporter candidates
      | none => candidates
    if new_paths.isEmpty then (node_ann, false)
    else
      let new_path_len := (new_paths.headD []).length
      if current_pref = PathPref.UNKNOWN then
        ({ path_pref := fun x => if x = importer then new_pref else node_ann.path_pref x,
           best_paths := fun x => if x = importer then new_paths else node_ann.best_paths x,
           path_len := fun x => if x = importer then some new_path_len else node_ann.path_len x },
         true)
      else
        let current_path_len := (node_ann.path_len importer).getD 0
        if new_path_len = current_path_len then
          ({ node_ann with
             best_paths := fun x =>
               if x = importer then node_ann.best_paths importer ++ new_paths
               else node_ann.best_paths x },
           false)
        else (node_ann, false)

/-- Trace of the callback invocations the engine performs. -/
inductive Event where
  | startPhase (pref : PathPref)
  | neighborAnnounce (src nei : Nat) (pref : PathPref) (path : List Nat)
  | visitEdge (exporter importer : Nat) (pref : PathPref)
deriving DecidableEq, Repr

/-- A seed considered by make_announcements: (source, neighbor, suffix). -/
abbrev Seed := Nat × Nat × List Nat

/-- The (source, neighbor, suffix) triples considered by
`make_announcements(pref)`, in announcement iteration order: exactly those
whose preference at the neighbor equals `pref`. -/
def seedsFor (g : ASGraph) (ann : Announcement) (pref : PathPref) : List Seed :=
  ann.source2neighbor2path.flatMap
    (fun sp => sp.2.filterMap
      (fun np => if prefD g sp.1 np.1 = pref then some (sp.1, np.1, np.2) else none))

/-- Append `src` to `inner[len]` (defaultdict(list) insertion). -/
def innerInsert (inner : List (Nat × List Nat)) (len src : Nat) : List (Nat × List Nat) :=
  if (alookup inner len).isSome then
    inner.map (fun q => if q.1 = len then (q.1, q.2 ++ [src]) else q)
  else inner ++ [(len, [src])]

/-- Append `src` to `outer[nei][len]` (nested defaultdicts). -/
def groupedInsert (outer : List (Nat × List (Nat × List Nat))) (nei len src : Nat) :
    List (Nat × List (Nat × List Nat)) :=
  if (alookup outer nei).isSome then
    outer.map (fun q => if q.1 = nei then (q.1, innerInsert q.2 len src) else q)
  else outer ++ [(nei, innerInsert [] len src)]

/-- The `nei2len2srcs` structure built by the first loop of
make_announcements. -/
def buildGrouped (seeds : List Seed) : List (Nat × List (Nat × List Nat)) :=
  seeds.foldl (fun acc s => groupedInsert acc s.2.1 s.2.2.length s.1) []

/-- Body of the inner loop of the second half of make_announcements: one
`update_paths` call for a retained source, re-reading the announced
suffix from the announcement, enqueuing the neighbor's work on a
first-time update. -/
def srcStep (g : ASGraph) (ann : Announcement) (nei : Nat)
    (st : NodeAccouncementData × WorkQueue) (src : Nat) :
    NodeAccouncementData × WorkQueue :=
  let announce_path := annLookup ann src nei
  let res := g.update_paths st.1 src nei (some announce_path)
  (res.1, if res.2 then st.2.add_work g res.1 nei else st.2)

/-- Body of the outer loop of the second half of make_announcements: for
one neighbor group, compute the minimum suffix length present and apply
`srcStep` to the sources recorded at that length, in order. -/
def groupStep (g : ASGraph) (ann : Announcement)
    (st : NodeAccouncementData × WorkQueue) (group : Nat × List (Nat × List Nat)) :
    NodeAccouncementData × WorkQueue :=
  ((alookup group.2 ((minKeyOf group.2).getD 0)).getD []).foldl (srcStep g ann group.1) st

/-- ASGraph.make_announcements: group considered seeds per neighbor by
suffix length (firing NEIGHBOR_ANNOUNCE for each considered seed); then,
for each neighbor, apply update_paths only to the sources of minimum
suffix length, enqueuing work on first-time updates. -/
def ASGraph.make_announcements (g : ASGraph) (ann : Announcement) (pref : PathPref)
    (node_ann : NodeAccouncementData) (wq : WorkQueue) :
    NodeAccouncementData × WorkQueue × List Event :=
  let considered := seedsFor g ann pref
  let events := considered.map (fun s => Event.neighborAnnounce s.1 s.2.1 pref s.2.2)
  let grouped := buildGrouped considered
  let st := grouped.foldl (groupStep g ann) (node_ann, wq)
  (st.1, st.2, events)

/-- Python `a in announce.source2neighbor2path`. -/
def isSource (ann : Announcement) (a : Nat) : Bool :=
  (alookup ann.source2neighbor2path a).isSome

/-- The early-stop condition of the drain loop:
`stop_at_target_asn is not None and len(best_paths[asn]) > count`. -/
def stopHit (node_ann : NodeAccouncementData) (stop_at_target_asn : Option Nat)
    (stop_at_target_count : Nat) : Bool :=
  match stop_at_target_asn with
  | some t => stop_at_target_count < (node_ann.best_paths t).length
  | none => false

/-- Result of draining one phase: final state, queue, event trace, whether
the loop exited through the early-stop break, and whether the fuel
sufficed (fuel_ok = true on every terminating Python run given enough
fuel). -/
structure DrainResult where
  node_ann : NodeAccouncementData
  wq : WorkQueue
  events : List Event
  stopped : Bool
  fuel_ok : Bool

/-- The `while edge:` drain loop of one phase of infer_paths.  Each
iteration pops an edge; then: break on the early-stop condition; fire
VISIT_EDGE; skip importers that are announcement sources; otherwise
update paths and, on a first-time update, enqueue the importer's work. -/
def ASGraph.drainPhase (g : ASGraph) (ann : Announcement) (stop_at_target_asn : Option Nat)
    (stop_at_target_count : Nat) (pref : PathPref) :
    Nat → NodeAccouncementData → WorkQueue → List Event → DrainResult
  | 0, node_ann, wq, events => ⟨node_ann, wq, events, false, false⟩
  | Nat.succ fuel, node_ann, wq, events =>
    match wq.get pref with
    | none => ⟨node_ann, wq, events, false, true⟩
    | some (edge, wq2) =>
      if stopHit node_ann stop_at_target_asn stop_at_target_count then
        ⟨node_ann, wq2, events, true, true⟩
      else
        let events2 := events ++ [Event.visitEdge edge.1 edge.2 pref]
        if isSource ann edge.2 then
          g.drainPhase ann stop_at_target_asn stop_at_target_count pref fuel node_ann wq2 events2
        else
          let res := g.update_paths node_ann edge.1 edge.2 none
          let wq3 := if res.2 then wq2.add_work g res.1 edge.2 else wq2
          g.drainPhase ann stop_at_target_asn stop_at_target_count pref fuel res.1 wq3 events2

/-- Inner loop of check_announcement over one source's neighbor dict. -/
def checkNeighbors (g : ASGraph) (source : Nat) : List (Nat × List Nat) → Except String Unit
  | [] => Except.ok ()
  | np :: rest =>
    if ! (g.neighbors source).contains np.1 then Except.error "Peering not in ASGraph"
    else if np.2.contains np.1 then Except.error "Neighbor poisoned in announcement"
    else checkNeighbors g source rest

/-- Outer loop of check_announcement over the announcement sources. -/
def checkSources (g : ASGraph) : List (Nat × List (Nat × List Nat)) → Except String Unit
  | [] => Except.ok ()
  | sp :: rest =>
    if ! g.hasNode sp.1 then Except.error "Source AS not in ASGraph"
    else
      match checkNeighbors g sp.1 sp.2 with
      | Except.error e => Except.error e
      | Except.ok _ => checkSources g rest

/-- ASGraph.check_announcement: raise on unknown source, non-adjacent
neighbor, or a neighbor poisoned in its own suffix. -/
def ASGraph.check_announcement (g : ASGraph) (ann : Announcement) : Except String Unit :=
  checkSources g ann.source2neighbor2path

/-- The condition under which check_announcement (and hence infer_paths)
raises, stated declaratively. -/
def invalidAnnouncement (g : ASGraph) (ann : Announcement) : Prop :=
  ∃ sp ∈ ann.source2neighbor2path,
    g.hasNode sp.1 = false ∨
      ∃ np ∈ sp.2, (g.neighbors sp.1).contains np.1 = false ∨ np.1 ∈ np.2

/-- Result of infer_paths: the mutated graph (announce reference
overwritten, work queue drained in place), the returned
NodeAccouncementData, the callback trace, and the fuel flag. -/
structure InferResult where
  graph : ASGraph
  node_ann : NodeAccouncementData
  events : List Event
  fuel_ok : Bool

/-- One iteration of the `for pref in [CUSTOMER, PEER, PROVIDER]` loop of
infer_paths: fire START_RELATIONSHIP_PHASE, seed the phase via
make_announcements, then drain the phase's bucket. -/
def runPhase (ann : Announcement) (stop_at_target_asn : Option Nat)
    (stop_at_target_count : Nat) (fuel : Nat) (st : InferResult) (pref : PathPref) :
    InferResult :=
  let ev := st.events ++ [Event.startPhase pref]
  let ma := st.graph.make_announcements ann pref st.node_ann st.graph.workqueue
  let g1 : ASGraph := { st.graph with workqueue := ma.2.1 }
  let dr := g1.drainPhase ann stop_at_target_asn stop_at_target_count pref fuel ma.1
    g1.workqueue (ev ++ ma.2.2)
  ⟨{ g1 with workqueue := dr.wq }, dr.node_ann, dr.events, st.fuel_ok && dr.fuel_ok⟩

/-- ASGraph.infer_paths.  Validates the announcement, overwrites the
graph-held announcement reference, creates a fresh NodeAccouncementData
(the `initial_node_announcement_data` parameter is accepted but, exactly
as in the source at line 296, never read), and runs the three phases in
preference order on the graph-owned work queue. -/
def ASGraph.infer_paths (g : ASGraph) (announce : Announcement)
    (stop_at_target_asn : Option Nat) (stop_at_target_count : Nat)
    (initial_node_announcement_data : Option NodeAccouncementData) (fuel : Nat) :
    Except String InferResult :=
  match g.check_announcement announce with
  | Except.error e => Except.error e
  | Except.ok _ =>
    let g1 : ASGraph := { g with announce := some announce }
    let node_ann := NodeAccouncementData.empty
    let start : InferResult := ⟨g1, node_ann, [], true⟩
    Except.ok ([PathPref.CUSTOMER, PathPref.PEER, PathPref.PROVIDER].foldl
      (runPhase announce stop_at_target_asn stop_at_target_count fuel) start)

/-- The per-edge relationship sequence of a path (source line: list of
`graph.g[path[i]][path[i+1]][EDGE_REL]`), with `none` marking a missing
edge (KeyError in Python). -/
def relsOf (g : ASGraph) (path : List Nat) : List (Option Relationship) :=
  (path.zip path.tail).map (fun pr => g.edgeRel pr.1 pr.2)

/-- The adjacent-pairs scan of path_is_valley_free: False as soon as some
relationship is less than its successor. -/
def nonIncB : List Relationship → Bool
  | a :: b :: rest => (! decide (a.val < b.val)) && nonIncB (b :: rest)
  | _ => true

/-- Number of P2P links in a relationship sequence. -/
def countP2P (rels : List Relationship) : Nat := rels.count Relationship.P2P

/-- path_is_valley_free: non-increasing relationship sequence with at most
one P2P link.  Returns none when some consecutive pair is not an edge of
the graph (where Python would raise KeyError). -/
def path_is_valley_free (g : ASGraph) (path : List Nat) : Option Bool :=
  let orels := relsOf g path
  if orels.all Option.isSome then
    let rels := orels.filterMap id
    some (nonIncB rels && decide (countP2P rels ≤ 1))
  else none

/-! Spec-side definitions (stated from the specification's words, for
comparison against the source-derived definitions above). -/

/-- The specification's relationship-to-preference table for the tag `r`
carried by the directed edge exporter→importer: P2C ↦ PROVIDER,
P2P ↦ PEER, C2P ↦ CUSTOMER. -/
def prefTable : Relationship → PathPref
  | Relationship.P2C => PathPref.PROVIDER
  | Relationship.P2P => PathPref.PEER
  | Relationship.C2P => PathPref.CUSTOMER

/-- Monotonically non-increasing relationship sequence under the order
P2C < P2P < C2P (the specification's valley-free uphill/downhill shape). -/
def nonIncreasing (rels : List Relationship) : Prop :=
  List.Chain' (fun a b => b.val ≤ a.val) rels

/-- First occurrences of a list of keys, in order. -/
def dedupFirst (l : List Nat) : List Nat :=
  l.foldl (fun acc x => if acc.contains x then acc else acc ++ [x]) []

/-- The considered seeds announced to a given neighbor. -/
def seedsAt (seeds : List Seed) (nei : Nat) : List Seed :=
  seeds.filter (fun s => s.2.1 = nei)

/-- Minimum suffix length among the considered seeds at a neighbor. -/
def minSeedLen (seeds : List Seed) (nei : Nat) : Option Nat :=
  listMin ((seedsAt seeds nei).map (fun s => s.2.2.length))

/-- The seeds the specification says are applied: per neighbor (in first
announcement-order occurrence), exactly the considered seeds of minimum
suffix length. -/
def appliedSeeds (seeds : List Seed) : List Seed :=
  (dedupFirst (seeds.map (fun s => s.2.1))).flatMap
    (fun nei =>
      (seedsAt seeds nei).filter
        (fun s => s.2.2.length = (minSeedLen seeds nei).getD 0))

/-- Applying one seed: update_paths with the announced suffix, enqueuing
the neighbor's work on a first-time update. -/
def applySeed (g : ASGraph) (st : NodeAccouncementData × WorkQueue) (s : Seed) :
    NodeAccouncementData × WorkQueue :=
  let res := g.update_paths st.1 s.1 s.2.1 (some s.2.2)
  (res.1, if res.2 then st.2.add_work g res.1 s.2.1 else st.2)

/-- Well-formedness of an announcement as a Python dict of dicts: no
duplicate source keys, no duplicate neighbor keys per source.  (Python
dictionaries cannot violate this; the association-list embedding can.) -/
def annWF (ann : Announcement) : Prop :=
  (ann.source2neighbor2path.map Prod.fst).Nodup ∧
    ∀ sp ∈ ann.source2neighbor2path, (sp.2.map Prod.fst).Nodup

/-! Concrete example graphs, announcements and states used by the
witnesses and counterexamples below. -/

/-- Two-AS graph: 1 is provider of 2. -/
def exG1 : ASGraph := ASGraph.new.add_peering 1 2 Relationship.P2C

/-- Announcement in which ASes 1 and 2 are both sources and each announces
to the other (both are valid: each neighbor pair is an edge). -/
def exAnnBoth : Announcement := ⟨[(1, [(2, [])]), (2, [(1, [])])]⟩

/-- Anycast-style announcement from source 1 to its neighbor 2. -/
def exAnnOne : Announcement := ⟨[(1, [(2, [])])]⟩

/-- A pre-programmed state holding an existing path at AS 7, as the
docstring of infer_paths says a caller may provide. -/
def exPre : NodeAccouncementData :=
  ⟨fun a => if a = 7 then PathPref.CUSTOMER else PathPref.UNKNOWN,
   fun a => if a = 7 then [[9]] else [],
   fun a => if a = 7 then some 1 else none⟩

/-- Four-AS graph: 1 provider of 2; 2 provider of 3 and of 4. -/
def exG3 : ASGraph :=
  ((ASGraph.new.add_peering 1 2 Relationship.P2C).add_peering 2 3
    Relationship.P2C).add_peering 2 4 Relationship.P2C

/-- A state in which AS 1 has a customer-learned path of length 0
(mirroring the repository's TestWorkQueue setup shape). -/
def exND : NodeAccouncementData :=
  ⟨fun a => if a = 1 then PathPref.CUSTOMER else PathPref.UNKNOWN,
   fun a => if a = 1 then [[]] else [],
   fun a => if a = 1 then some 0 else none⟩

/-- A concrete work queue with two customer depths. -/
def exWQ : WorkQueue := ⟨[(2, [(1, 2), (1, 3)]), (1, [(4, 5)])], [], []⟩

/-! Basic lemmas about the association-list operations. -/

theorem alookup_append {α : Type} (l1 l2 : List (Nat × α)) (k : Nat) :
    alookup (l1 ++ l2) k = (alookup l1 k).or (alookup l2 k) := by
  induction l1 with
  | nil => simp [alookup]
  | cons p rest ih => by_cases h : p.1 = k <;> simp [alookup, h, ih]

theorem alookup_map_update {α : Type} (l : List (Nat × α)) (u k : Nat) (f : α → α) :
    alookup (l.map (fun p => if p.1 = u then (u, f p.2) else p)) k =
      if k = u then (alookup l u).map f else alookup l k := by
  induction l with
  | nil => simp [alookup]
  | cons p rest ih =>
    by_cases hpu : p.1 = u
    · by_cases hku : k = u
      · simp [alookup, hpu, hku, ih]
      · simp [alookup, hpu, hku, ih, Ne.symm hku]
    · by_cases hpk : p.1 = k
      · have hku : ¬ k = u := fun h => hpu (hpk.trans h)
        simp [alookup, hpu, hpk, hku]
      · simp [alookup, hpu, hpk, ih]

theorem alookup_isSome_of_mem_keys {α : Type} (l : List (Nat × α)) (k : Nat)
    (h : k ∈ l.map Prod.fst) : (alookup l k).isSome = true := by
  induction l with
  | nil => simp at h
  | cons p rest ih =>
    by_cases hpk : p.1 = k
    · simp [alookup, hpk]
    · simp only [List.map_cons, List.mem_cons] at h
      rcases h with h | h
      · exact absurd h.symm hpk
      · simpa [alookup, hpk] using ih h

theorem mem_keys_of_alookup_isSome {α : Type} (l : List (Nat × α)) (k : Nat)
    (h : (alookup l k).isSome = true) : k ∈ l.map Prod.fst := by
  induction l with
  | nil => simp [alookup] at h
  | cons p rest ih =>
    by_cases hpk : p.1 = k
    · simp [hpk]
    · simp only [alookup, hpk, if_neg] at h
      simp [ih h]

theorem mem_of_alookup_eq_some {α : Type} (l : List (Nat × α)) (k : Nat) (v : α)
    (h : alookup l k = some v) : (k, v) ∈ l := by
  induction l with
  | nil => simp [alookup] at h
  | cons p rest ih =>
    by_cases hpk : p.1 = k
    · obtain ⟨pk, pv⟩ := p
      have hpk2 : pk = k := hpk
      subst hpk2
      simp [alookup] at h
      simp [h]
    · simp only [alookup, hpk, if_neg] at h
      exact List.mem_cons_of_mem _ (ih h)

/-! Lemmas about graph construction (add_peering). -/

theorem addNodeIfAbsent_lookup_of_isSome (g : ASGraph) (u k : Nat)
    (h : (alookup g.adj k).isSome = true) :
    alookup (addNodeIfAbsent g u).adj k = alookup g.adj k := by
  unfold addNodeIfAbsent ASGraph.hasNode
  by_cases hu : (alookup g.adj u).isSome = true
  · simp [hu]
  · obtain ⟨s, hs⟩ := Option.isSome_iff_exists.mp h
    simp [hu, alookup_append, hs, Option.or]

theorem addNodeIfAbsent_isSome_self (g : ASGraph) (u : Nat) :
    (alookup (addNodeIfAbsent g u).adj u).isSome = true := by
  unfold addNodeIfAbsent ASGraph.hasNode
  cases hres : alookup g.adj u with
  | some s => simp [hres]
  | none => simp [hres, alookup_append, Option.or, alookup]

theorem addNodeIfAbsent_isSome_of_isSome (g : ASGraph) (u k : Nat)
    (h : (alookup g.adj k).isSome = true) :
    (alookup (addNodeIfAbsent g u).adj k).isSome = true := by
  rw [addNodeIfAbsent_lookup_of_isSome g u k h]
  exact h

theorem alookup_setRel_self (s : List (Nat × Relationship)) (v : Nat) (r : Relationship) :
    alookup (setRel s v r) v = some r := by
  unfold setRel
  by_cases hv : (alookup s v).isSome = true
  · rw [if_pos hv]
    have h := alookup_map_update s v v (fun _ => r)
    rw [if_pos rfl] at h
    rw [h]
    obtain ⟨x, hx⟩ := Option.isSome_iff_exists.mp hv
    rw [hx]
    rfl
  · rw [if_neg hv]
    cases hres : alookup s v with
    | some x => rw [hres] at hv; simp at hv
    | none => rw [alookup_append, hres]; simp [Option.or, alookup]

theorem adjSetEdge_lookup (adj : List (Nat × List (Nat × Relationship))) (u v : Nat)
    (r : Relationship) (k : Nat) :
    alookup (adjSetEdge adj u v r) k =
      if k = u then (alookup adj u).map (fun s => setRel s v r) else alookup adj k := by
  unfold adjSetEdge
  exact alookup_map_update adj u k (fun s => setRel s v r)

/-- CLAIM C4.  For every edge created by `add_peering(a, b, rel)` carrying
relationship tag `r` on the directed edge exporter→importer,
`PathPref.from_relationship(graph, exporter, importer)` returns PROVIDER
when r = P2C, PEER when r = P2P, and CUSTOMER when r = C2P (this is the
`prefTable` mapping), and raises the unsupported-relationship ValueError
for any numeric tag other than the three valid ones.  After
`add_peering(a, b, rel)` the edge a→b carries `rel` and the edge b→a
carries `rel.reversed`, and `from_relationship` on each returns exactly
the table entry for that edge's own tag. -/
theorem claim4_from_relationship_table (g : ASGraph) (a b : Nat) (rel : Relationship)
    (hab : a ≠ b) :
    ((g.add_peering a b rel).edgeRel a b = some rel ∧
     (g.add_peering a b rel).edgeRel b a = some rel.reversed ∧
     PathPref.from_relationship (g.add_peering a b rel) a b = Except.ok (prefTable rel) ∧
     PathPref.from_relationship (g.add_peering a b rel) b a =
       Except.ok (prefTable rel.reversed)) ∧
    (∀ v : Int, v ≠ -1 → v ≠ 0 → v ≠ 1 →
      from_relationship_val v = Except.error "Unsupported relationship") := by
  have hba : b ≠ a := Ne.symm hab
  set g2 := addNodeIfAbsent (addNodeIfAbsent g a) b with hg2
  have ha2 : (alookup g2.adj a).isSome = true :=
    addNodeIfAbsent_isSome_of_isSome _ b a (addNodeIfAbsent_isSome_self g a)
  have hb2 : (alookup g2.adj b).isSome = true := addNodeIfAbsent_isSome_self _ b
  obtain ⟨sa, hsa⟩ := Option.isSome_iff_exists.mp ha2
  obtain ⟨sb, hsb⟩ := Option.isSome_iff_exists.mp hb2
  have hadj : (g.add_peering a b rel).adj =
      adjSetEdge (adjSetEdge g2.adj a b rel) b a rel.reversed := rfl
  have hlookA : alookup (g.add_peering a b rel).adj a = some (setRel sa b rel) := by
    rw [hadj, adjSetEdge_lookup, if_neg hab, adjSetEdge_lookup, if_pos rfl, hsa]
    rfl
  have hlookB : alookup (g.add_peering a b rel).adj b =
      some (setRel sb a rel.reversed) := by
    rw [hadj, adjSetEdge_lookup, if_pos rfl, adjSetEdge_lookup, if_neg hba, hsb]
    rfl
  have hrelAB : (g.add_peering a b rel).edgeRel a b = some rel := by
    unfold ASGraph.edgeRel ASGraph.succList
    rw [hlookA]
    simpa using alookup_setRel_self sa b rel
  have hrelBA : (g.add_peering a b rel).edgeRel b a = some rel.reversed := by
    unfold ASGraph.edgeRel ASGraph.succList
    rw [hlookB]
    simpa using alookup_setRel_self sb a rel.reversed
  refine ⟨⟨hrelAB, hrelBA, ?_, ?_⟩, ?_⟩
  · unfold PathPref.from_relationship
    rw [hrelBA]
    cases rel <;> rfl
  · unfold PathPref.from_relationship
    rw [hrelAB]
    cases rel <;> rfl
  · intro v h1 h2 h3
    unfold from_relationship_val
    rw [if_neg h1, if_neg h2, if_neg h3]

/-- Witness for C4 at a concrete input: adding peering 1→2 with P2C, the
preference of paths imported at 2 over the edge 1→2 is PROVIDER. -/
theorem claim4_witness :
    (1 : Nat) ≠ 2 ∧
    PathPref.from_relationship (ASGraph.new.add_peering 1 2 Relationship.P2C) 1 2 =
      Except.ok PathPref.PROVIDER :=
  ⟨by decide,
   (claim4_from_relationship_table ASGraph.new 1 2 Relationship.P2C (by decide)).1.2.2.1⟩

/-! Claim C8: the valley-free predicate. -/

theorem nonIncB_iff (rels : List Relationship) :
    nonIncB rels = true ↔ nonIncreasing rels := by
  induction rels with
  | nil => simp [nonIncB, nonIncreasing]
  | cons a rest ih =>
    cases rest with
    | nil => simp [nonIncB, nonIncreasing]
    | cons b rest2 =>
      rw [nonIncreasing, List.chain'_cons, ← nonIncreasing, ← ih]
      show ((! decide (a.val < b.val)) && nonIncB (b :: rest2)) = true ↔ _
      rw [Bool.and_eq_true]
      simp [not_lt]

theorem claim8_aux_total (g : ASGraph) (path : List Nat)
    (h : ∀ pr ∈ path.zip path.tail, (g.edgeRel pr.1 pr.2).isSome = true) :
    path_is_valley_free g path =
      some (nonIncB ((relsOf g path).filterMap id) &&
        decide (countP2P ((relsOf g path).filterMap id) ≤ 1)) := by
  have hall : (relsOf g path).all Option.isSome = true := by
    rw [List.all_eq_true]
    intro o ho
    unfold relsOf at ho
    obtain ⟨pr, hpr, rfl⟩ := List.mem_map.mp ho
    exact h pr hpr
  simp only [path_is_valley_free, hall, if_pos]

/-- CLAIM C8.  For every path whose consecutive pairs are all edges of the
graph, path_is_valley_free returns a Boolean, which is True exactly when
the sequence of edge relationships is monotonically non-increasing under
the order P2C < P2P < C2P and contains at most one P2P; in particular any
path with fewer than two edges (length at most 2) is valley-free. -/
theorem claim8_path_is_valley_free (g : ASGraph) (path : List Nat)
    (h : ∀ pr ∈ path.zip path.tail, (g.edgeRel pr.1 pr.2).isSome = true) :
    (path_is_valley_free g path = some true ↔
      nonIncreasing ((relsOf g path).filterMap id) ∧
        countP2P ((relsOf g path).filterMap id) ≤ 1) ∧
    (path.length ≤ 2 → path_is_valley_free g path = some true) := by
  have htot := claim8_aux_total g path h
  constructor
  · rw [htot]
    simp only [Option.some_inj]
    constructor
    · intro hb
      have hb2 := hb  -- Bool equation
      rw [Bool.and_eq_true] at hb2
      exact ⟨(nonIncB_iff _).mp hb2.1, of_decide_eq_true hb2.2⟩
    · intro ⟨h1, h2⟩
      rw [(nonIncB_iff _).mpr h1, decide_eq_true h2]
      rfl
  · intro hlen
    have hrlen : ((relsOf g path).filterMap id).length ≤ 1 := by
      have h1 : ((relsOf g path).filterMap id).length ≤ (relsOf g path).length :=
        List.length_filterMap_le _ _
      have h2 : (relsOf g path).length ≤ 1 := by
        unfold relsOf
        rw [List.length_map, List.length_zip, List.length_tail]
        omega
      omega
    rw [htot]
    have hni : nonIncB ((relsOf g path).filterMap id) = true := by
      cases hr : (relsOf g path).filterMap id with
      | nil => rfl
      | cons a rest =>
        cases rest with
        | nil => rfl
        | cons b rest2 => rw [hr] at hrlen; simp at hrlen
    have hcnt : countP2P ((relsOf g path).filterMap id) ≤ 1 := by
      unfold countP2P
      calc List.count Relationship.P2P ((relsOf g path).filterMap id)
          ≤ ((relsOf g path).filterMap id).length := List.count_le_length _ _
        _ ≤ 1 := hrlen
    rw [hni, decide_eq_true hcnt]
    rfl

/-- Witness for C8 at a concrete input: the path 3,2,1 in `exG3` climbs
two customer-to-provider edges and is valley-free. -/
theorem claim8_witness :
    (∀ pr ∈ ([3, 2, 1] : List Nat).zip ([3, 2, 1] : List Nat).tail,
      (exG3.edgeRel pr.1 pr.2).isSome = true) ∧
    path_is_valley_free exG3 [3, 2, 1] = some true := by
  refine ⟨by decide, ?_⟩
  exact (claim8_path_is_valley_free exG3 [3, 2, 1] (by decide)).1.mpr
    ⟨(nonIncB_iff _).mp (by decide), by decide⟩

/-! Claim C3: the work queue enqueue rule (add_work). -/

theorem bucketGet_bucketSet_self (b : Bucket) (d : Nat) (v : List Edge) :
    bucketGet (bucketSet b d v) d = v := by
  unfold bucketGet bucketSet
  by_cases hd : (alookup b d).isSome = true
  · rw [if_pos hd]
    have h := alookup_map_update b d d (fun _ => v)
    rw [if_pos rfl] at h
    rw [h]
    obtain ⟨x, hx⟩ := Option.isSome_iff_exists.mp hd
    rw [hx]
    rfl
  · rw [if_neg hd]
    cases hres : alookup b d with
    | some x => rw [hres] at hd; simp at hd
    | none => rw [alookup_append, hres]; simp [Option.or, alookup]

theorem bucketGet_bucketSet_ne (b : Bucket) (d d2 : Nat) (v : List Edge) (h : d2 ≠ d) :
    bucketGet (bucketSet b d v) d2 = bucketGet b d2 := by
  unfold bucketGet bucketSet
  by_cases hd : (alookup b d).isSome = true
  · rw [if_pos hd]
    have hm := alookup_map_update b d d2 (fun _ => v)
    rw [if_neg h] at hm
    rw [hm]
  · rw [if_neg hd, alookup_append]
    cases hres : alookup b d2 with
    | some x => simp [Option.or]
    | none => simp [Option.or, alookup, Ne.symm h]

theorem bucket_setBucket_self (wq : WorkQueue) (p : PathPref) (b : Bucket)
    (h : p ≠ PathPref.UNKNOWN) : (wq.setBucket p b).bucket p = b := by
  cases p
  · rfl
  · rfl
  · rfl
  · exact absurd rfl h

theorem bucket_setBucket_ne (wq : WorkQueue) (p p2 : PathPref) (b : Bucket)
    (h : p2 ≠ p) : (wq.setBucket p b).bucket p2 = wq.bucket p2 := by
  cases p <;> cases p2 <;> first | rfl | exact absurd rfl h

theorem bucketGet_push (wq : WorkQueue) (p : PathPref) (d : Nat) (e : Edge)
    (hp : p ≠ PathPref.UNKNOWN) (p2 : PathPref) (d2 : Nat) :
    bucketGet ((wq.push p d e).bucket p2) d2 =
      bucketGet (wq.bucket p2) d2 ++ (if p2 = p ∧ d2 = d then [e] else []) := by
  unfold WorkQueue.push
  by_cases hpp : p2 = p
  · subst hpp
    rw [bucket_setBucket_self _ _ _ hp]
    by_cases hdd : d2 = d
    · subst hdd
      rw [bucketGet_bucketSet_self]
      simp
    · rw [bucketGet_bucketSet_ne _ _ _ _ hdd]
      simp [hdd]
  · rw [bucket_setBucket_ne _ _ _ _ hpp]
    simp [hpp]

theorem prefD_ne_unknown (g : ASGraph) (ex n : Nat)
    (h : (g.edgeRel n ex).isSome = true) : prefD g ex n ≠ PathPref.UNKNOWN := by
  obtain ⟨r, hr⟩ := Option.isSome_iff_exists.mp h
  unfold prefD PathPref.from_relationship
  rw [hr]
  cases r <;> simp [from_relationship_val, Relationship.val]

theorem add_work_fold (g : ASGraph) (nd : NodeAccouncementData) (exporter L : Nat)
    (hlen : nd.path_len exporter = some L) :
    ∀ (ns : List Nat) (wq : WorkQueue),
      (∀ n ∈ ns, (g.edgeRel n exporter).isSome = true) →
      ∀ p d,
        bucketGet ((ns.foldl (fun acc downstream =>
            if nd.path_pref exporter = PathPref.CUSTOMER ∨
                prefD g exporter downstream = PathPref.PROVIDER then
              acc.push (prefD g exporter downstream) ((nd.path_len exporter).getD 0)
                (exporter, downstream)
            else acc) wq).bucket p) d =
        bucketGet (wq.bucket p) d ++
          (if d = L then
            ((ns.filter (fun n =>
              decide ((nd.path_pref exporter = PathPref.CUSTOMER ∨
                prefD g exporter n = PathPref.PROVIDER) ∧ prefD g exporter n = p))).map
              (fun n => (exporter, n)))
          else []) := by
  intro ns
  induction ns with
  | nil =>
    intro wq h p d
    simp
  | cons n rest ih =>
    intro wq h p d
    have hn := h n (List.mem_cons_self n rest)
    have hrest : ∀ m ∈ rest, (g.edgeRel m exporter).isSome = true :=
      fun m hm => h m (List.mem_cons_of_mem n hm)
    rw [List.foldl_cons]
    by_cases hcond : nd.path_pref exporter = PathPref.CUSTOMER ∨
        prefD g exporter n = PathPref.PROVIDER
    · rw [if_pos hcond]
      rw [ih _ hrest p d]
      rw [bucketGet_push _ _ _ _ (prefD_ne_unknown g exporter n hn)]
      rw [hlen]
      rw [List.append_assoc]
      congr 1
      by_cases hdL : d = L
      · subst hdL
        rw [if_pos rfl, if_pos rfl, List.filter_cons]
        by_cases hpn : prefD g exporter n = p
        · have : decide ((nd.path_pref exporter = PathPref.CUSTOMER ∨
              prefD g exporter n = PathPref.PROVIDER) ∧ prefD g exporter n = p) = true :=
            decide_eq_true ⟨hcond, hpn⟩
          rw [if_pos this, if_pos ⟨hpn.symm, rfl⟩]
          simp
        · have : ¬ (decide ((nd.path_pref exporter = PathPref.CUSTOMER ∨
              prefD g exporter n = PathPref.PROVIDER) ∧ prefD g exporter n = p) = true) := by
            simp only [decide_eq_true_eq]
            exact fun hand => hpn hand.2
          rw [if_neg this, if_neg (fun hand => hpn (Eq.symm hand.1))]
          simp
      · rw [if_neg hdL, if_neg hdL, if_neg (fun hand => hdL hand.2)]
        simp
    · rw [if_neg hcond]
      rw [ih _ hrest p d]
      congr 1
      by_cases hdL : d = L
      · subst hdL
        rw [if_pos rfl, if_pos rfl, List.filter_cons]
        have : ¬ (decide ((nd.path_pref exporter = PathPref.CUSTOMER ∨
            prefD g exporter n = PathPref.PROVIDER) ∧ prefD g exporter n = p) = true) := by
          simp only [decide_eq_true_eq]
          exact fun hand => hcond hand.1
        rw [if_neg this]
      · rw [if_neg hdL, if_neg hdL]

/-- CLAIM C3.  For every graph, state, and exporter with path_pref and
path_len defined (path_len[exporter] = L; the reverse edge of each
neighbor is present as add_peering guarantees), add_work enqueues
(exporter, n) for a neighbor n into bucket down_pref = PathPref(exporter→n)
at depth L if and only if path_pref[exporter] = CUSTOMER or
down_pref = PROVIDER, and no other queue entry changes: every bucket entry
of the new queue is the old entry followed by exactly the edges to the
neighbors passing the export rule with that preference, at depth L only. -/
theorem claim3_add_work (g : ASGraph) (nd : NodeAccouncementData) (wq : WorkQueue)
    (exporter L : Nat) (hlen : nd.path_len exporter = some L)
    (hsym : ∀ n ∈ g.neighbors exporter, (g.edgeRel n exporter).isSome = true) :
    ∀ p d, bucketGet ((wq.add_work g nd exporter).bucket p) d =
      bucketGet (wq.bucket p) d ++
        (if d = L then
          ((g.neighbors exporter).filter (fun n =>
            decide ((nd.path_pref exporter = PathPref.CUSTOMER ∨
              prefD g exporter n = PathPref.PROVIDER) ∧ prefD g exporter n = p))).map
            (fun n => (exporter, n))
        else []) := by
  intro p d
  unfold WorkQueue.add_work
  exact add_work_fold g nd exporter L hlen (g.neighbors exporter) wq hsym p d

/-- Witness for C3 at a concrete input: in `exG1` with the customer path
of length 0 at AS 1, add_work enqueues the provider edge (1, 2) at
depth 0. -/
theorem claim3_witness :
    exND.path_len 1 = some 0 ∧
    (∀ n ∈ exG1.neighbors 1, (exG1.edgeRel n 1).isSome = true) ∧
    bucketGet ((WorkQueue.empty.add_work exG1 exND 1).bucket PathPref.PROVIDER) 0 =
      [(1, 2)] := by
  refine ⟨by decide, by decide, ?_⟩
  exact (claim3_add_work exG1 exND WorkQueue.empty 1 0 (by decide) (by decide)
    PathPref.PROVIDER 0).trans (by decide)

/-! Claim C5: the work queue pop operation (get). -/

theorem listMin_eq_none_iff (l : List Nat) : listMin l = none ↔ l = [] := by
  cases l with
  | nil => simp [listMin]
  | cons x xs =>
    simp only [listMin]
    cases listMin xs <;> simp

theorem listMin_spec (l : List Nat) (m : Nat) (h : listMin l = some m) :
    m ∈ l ∧ ∀ x ∈ l, m ≤ x := by
  induction l generalizing m with
  | nil => simp [listMin] at h
  | cons x xs ih =>
    simp only [listMin] at h
    cases hxs : listMin xs with
    | none =>
      rw [hxs] at h
      injection h with h
      subst h
      have hnil : xs = [] := (listMin_eq_none_iff xs).mp hxs
      subst hnil
      simp
    | some m2 =>
      rw [hxs] at h
      injection h with h
      obtain ⟨hmem, hle⟩ := ih m2 hxs
      subst h
      have hdef : Nat.min x m2 = if x ≤ m2 then x else m2 := rfl
      constructor
      · rw [hdef]
        by_cases hc : x ≤ m2
        · rw [if_pos hc]
          exact List.mem_cons_self x xs
        · rw [if_neg hc]
          exact List.mem_cons_of_mem _ hmem
      · intro y hy
        have hmin : Nat.min x m2 ≤ x ∧ Nat.min x m2 ≤ m2 := by
          rw [hdef]
          by_cases hc : x ≤ m2
          · exact ⟨by rw [if_pos hc], by rw [if_pos hc]; exact hc⟩
          · exact ⟨by rw [if_neg hc]; omega, by rw [if_neg hc]⟩
        rcases List.mem_cons.mp hy with rfl | hy2
        · exact hmin.1
        · exact le_trans hmin.2 (hle y hy2)

theorem minKeyOf_spec {α : Type} (l : List (Nat × α)) (m : Nat)
    (h : minKeyOf l = some m) :
    m ∈ l.map Prod.fst ∧ ∀ k ∈ l.map Prod.fst, m ≤ k := listMin_spec _ m h

theorem minKeyOf_eq_none_iff {α : Type} (l : List (Nat × α)) :
    minKeyOf l = none ↔ l = [] := by
  unfold minKeyOf
  rw [listMin_eq_none_iff]
  simp

theorem alookup_bucketErase (b : Bucket) (d d2 : Nat) :
    alookup (bucketErase b d) d2 = if d2 = d then none else alookup b d2 := by
  unfold bucketErase
  induction b with
  | nil => by_cases hd : d2 = d <;> simp [alookup, hd]
  | cons p rest ih =>
    rw [List.filter_cons]
    by_cases hp : p.1 = d
    · have hc : ¬ ((! decide (p.1 = d)) = true) := by simp [hp]
      rw [if_neg hc, ih]
      by_cases hd : d2 = d
      · rw [if_pos hd, if_pos hd]
      · rw [if_neg hd, if_neg hd]
        have hp2 : ¬ p.1 = d2 := by
          rw [hp]
          exact fun he => hd he.symm
        conv_rhs => rw [alookup]
        rw [if_neg hp2]
    · have hc : ((! decide (p.1 = d)) = true) := by simp [hp]
      rw [if_pos hc]
      show alookup (p :: _) d2 = _
      by_cases hp2 : p.1 = d2
      · have hd : ¬ d2 = d := by
          rw [← hp2]
          exact fun he => hp he
        rw [if_neg hd]
        rw [alookup, if_pos hp2]
        conv_rhs => rw [alookup]
        rw [if_pos hp2]
      · rw [alookup, if_neg hp2, ih]
        by_cases hd : d2 = d
        · rw [if_pos hd, if_pos hd]
        · rw [if_neg hd, if_neg hd]
          conv_rhs => rw [alookup]
          rw [if_neg hp2]

theorem bucketGet_bucketErase_self (b : Bucket) (d : Nat) :
    bucketGet (bucketErase b d) d = [] := by
  unfold bucketGet
  rw [alookup_bucketErase, if_pos rfl]
  rfl

theorem keys_bucketErase (b : Bucket) (d : Nat) :
    d ∉ bucketKeys (bucketErase b d) := by
  unfold bucketKeys bucketErase
  intro hmem
  obtain ⟨p, hp, hpd⟩ := List.mem_map.mp hmem
  have hkeep := List.of_mem_filter hp
  simp only [Bool.not_eq_true', decide_eq_false_iff_not] at hkeep
  exact hkeep hpd

theorem bucketGet_bucketErase_ne (b : Bucket) (d d2 : Nat) (h : d2 ≠ d) :
    bucketGet (bucketErase b d) d2 = bucketGet b d2 := by
  unfold bucketGet
  rw [alookup_bucketErase, if_neg h]

/-- CLAIM C5.  For every WorkQueue and preference with no empty depth
collection retained in its bucket (the queue's own invariant), get
returns none iff the bucket is empty; otherwise it returns one edge
taken from the smallest depth key present, removes that edge (the edge
list at that depth loses exactly its popped last element), changes no
other depth and no other bucket, and erases the depth key when its
collection becomes empty. -/
theorem claim5_workqueue_get (wq : WorkQueue) (pref : PathPref)
    (hinv : ∀ e ∈ wq.bucket pref, e.2 ≠ []) :
    (wq.get pref = none ↔ wq.bucket pref = []) ∧
    (∀ e wq2, wq.get pref = some (e, wq2) →
      ∃ d, minKeyOf (wq.bucket pref) = some d ∧
        d ∈ bucketKeys (wq.bucket pref) ∧
        (∀ k ∈ bucketKeys (wq.bucket pref), d ≤ k) ∧
        bucketGet (wq.bucket pref) d = bucketGet (wq2.bucket pref) d ++ [e] ∧
        (∀ d2, d2 ≠ d → bucketGet (wq2.bucket pref) d2 = bucketGet (wq.bucket pref) d2) ∧
        (bucketGet (wq2.bucket pref) d = [] → d ∉ bucketKeys (wq2.bucket pref)) ∧
        (∀ p2, p2 ≠ pref → wq2.bucket p2 = wq.bucket p2)) := by
  cases hmk : minKeyOf (wq.bucket pref) with
  | none =>
    have hb : wq.bucket pref = [] := (minKeyOf_eq_none_iff _).mp hmk
    have hget : wq.get pref = none := by
      unfold WorkQueue.get
      simp only [hmk]
    constructor
    · simp [hget, hb]
    · intro e wq2 hsome
      rw [hget] at hsome
      exact absurd hsome (by simp)
  | some d =>
    obtain ⟨hdmem, hdle⟩ := minKeyOf_spec _ d hmk
    have hlsome : (alookup (wq.bucket pref) d).isSome = true :=
      alookup_isSome_of_mem_keys _ _ hdmem
    obtain ⟨l, hl⟩ := Option.isSome_iff_exists.mp hlsome
    have hlne : l ≠ [] := hinv (d, l) (mem_of_alookup_eq_some _ _ _ hl)
    have hbg : bucketGet (wq.bucket pref) d = l := by
      unfold bucketGet
      rw [hl]
      rfl
    have hprefU : pref ≠ PathPref.UNKNOWN := by
      intro h
      subst h
      have : (wq.bucket PathPref.UNKNOWN) = [] := rfl
      rw [this] at hmk
      simp [minKeyOf, listMin] at hmk
    have hget : wq.get pref =
        some (l.getLast hlne, wq.setBucket pref
          (if (l.dropLast).isEmpty then bucketErase (wq.bucket pref) d
           else bucketSet (wq.bucket pref) d l.dropLast)) := by
      unfold WorkQueue.get
      simp only [hmk, hbg, List.getLast?_eq_getLast_of_ne_nil hlne]
    constructor
    · rw [hget]
      constructor
      · intro h
        exact absurd h (by simp)
      · intro h
        rw [h] at hbg
        unfold bucketGet alookup at hbg
        exact absurd hbg.symm hlne
    · intro e wq2 hsome
      rw [hget] at hsome
      have he : e = l.getLast hlne := by
        injection hsome with h1
        injection h1 with h2 h3
        exact h2.symm
      have hwq2 : wq2 = wq.setBucket pref
          (if (l.dropLast).isEmpty then bucketErase (wq.bucket pref) d
           else bucketSet (wq.bucket pref) d l.dropLast) := by
        injection hsome with h1
        injection h1 with h2 h3
        exact h3.symm
      subst he
      subst hwq2
      refine ⟨d, rfl, hdmem, hdle, ?_, ?_, ?_, ?_⟩
      · rw [bucket_setBucket_self _ _ _ hprefU]
        by_cases hemp : (l.dropLast).isEmpty
        · rw [if_pos hemp, bucketGet_bucketErase_self, hbg]
          have hdrop : l.dropLast = [] := by
            cases hres : l.dropLast with
            | nil => rfl
            | cons a b => rw [hres] at hemp; simp [List.isEmpty] at hemp
          have := List.dropLast_append_getLast hlne
          rw [hdrop] at this
          exact this.symm
        · rw [if_neg hemp, bucketGet_bucketSet_self, hbg]
          exact (List.dropLast_append_getLast hlne).symm
      · intro d2 hd2
        rw [bucket_setBucket_self _ _ _ hprefU]
        by_cases hemp : (l.dropLast).isEmpty
        · rw [if_pos hemp]
          exact bucketGet_bucketErase_ne _ _ _ hd2
        · rw [if_neg hemp]
          exact bucketGet_bucketSet_ne _ _ _ _ hd2
      · rw [bucket_setBucket_self _ _ _ hprefU]
        by_cases hemp : (l.dropLast).isEmpty
        · rw [if_pos hemp]
          intro _
          exact keys_bucketErase _ _
        · rw [if_neg hemp, bucketGet_bucketSet_self]
          intro habs
          rw [habs] at hemp
          simp [List.isEmpty] at hemp
      · intro p2 hp2
        exact bucket_setBucket_ne _ _ _ _ hp2

/-- Witness for C5 at a concrete input: a queue with customer depths 2 and
1; its invariant holds and get is none exactly on the empty bucket. -/
theorem claim5_witness :
    (∀ e ∈ exWQ.bucket PathPref.CUSTOMER, e.2 ≠ []) ∧
    (exWQ.get PathPref.CUSTOMER = none ↔ exWQ.bucket PathPref.CUSTOMER = []) :=
  ⟨by decide, (claim5_workqueue_get exWQ PathPref.CUSTOMER (by decide)).1⟩

/-! Claim C9: the early-stop condition of the drain loop. -/

theorem drainPhase_succ (g : ASGraph) (ann : Announcement) (s : Option Nat) (c : Nat)
    (pref : PathPref) (fuel : Nat) (nd : NodeAccouncementData) (wq : WorkQueue)
    (ev : List Event) :
    g.drainPhase ann s c pref (fuel + 1) nd wq ev =
      match wq.get pref with
      | none => ⟨nd, wq, ev, false, true⟩
      | some (edge, wq2) =>
        if stopHit nd s c then ⟨nd, wq2, ev, true, true⟩
        else
          let events2 := ev ++ [Event.visitEdge edge.1 edge.2 pref]
          if isSource ann edge.2 then g.drainPhase ann s c pref fuel nd wq2 events2
          else
            let res := g.update_paths nd edge.1 edge.2 none
            let wq3 := if res.2 then wq2.add_work g res.1 edge.2 else wq2
            g.drainPhase ann s c pref fuel res.1 wq3 events2 := rfl

/-- CLAIM C9.  With stop_at_asn = t given, the drain loop exits through
the early-stop break only when, at an edge pop, the strict inequality
count < len(best_paths[t]) holds for the state at that moment (which is
the returned state): so the engine stops only after accumulating at least
count + 1 paths at t (at least 3 with the default count = 2), and never
stops when exactly count paths are present.  Conversely, as soon as a pop
succeeds while the inequality holds, the loop exits immediately,
returning the state unchanged with the popped edge removed. -/
theorem claim9_early_stop (g : ASGraph) (ann : Announcement) (t count : Nat)
    (pref : PathPref) :
    (∀ fuel nd wq ev,
      (g.drainPhase ann (some t) count pref fuel nd wq ev).stopped = true →
      count <
        ((g.drainPhase ann (some t) count pref fuel nd wq ev).node_ann.best_paths t).length) ∧
    (∀ fuel nd wq ev e wq2,
      wq.get pref = some (e, wq2) →
      count < (nd.best_paths t).length →
      g.drainPhase ann (some t) count pref (fuel + 1) nd wq ev =
        ⟨nd, wq2, ev, true, true⟩) := by
  constructor
  · intro fuel
    induction fuel with
    | zero =>
      intro nd wq ev h
      exact absurd h (by simp [ASGraph.drainPhase])
    | succ fuel ih =>
      intro nd wq ev h
      rw [drainPhase_succ] at h ⊢
      cases hwg : wq.get pref with
      | none =>
        rw [hwg] at h
        simp at h
      | some pair =>
        obtain ⟨edge, wq2⟩ := pair
        rw [hwg] at h
        dsimp only at h ⊢
        by_cases hstop : stopHit nd (some t) count = true
        · rw [if_pos hstop] at h ⊢
          unfold stopHit at hstop
          exact of_decide_eq_true hstop
        · have hstop2 : stopHit nd (some t) count = false :=
            Bool.eq_false_iff.mpr hstop
          rw [hstop2] at h ⊢
          simp only [Bool.false_eq_true, if_false] at h ⊢
          by_cases hsrc : isSource ann edge.2 = true
          · rw [if_pos hsrc] at h ⊢
            exact ih _ _ _ h
          · have hsrc2 : isSource ann edge.2 = false := Bool.eq_false_iff.mpr hsrc
            rw [hsrc2] at h ⊢
            simp only [Bool.false_eq_true, if_false] at h ⊢
            exact ih _ _ _ h
  · intro fuel nd wq ev e wq2 hget hcnt
    have hstop : stopHit nd (some t) count = true := by
      unfold stopHit
      exact decide_eq_true hcnt
    rw [drainPhase_succ, hget]
    dsimp only
    rw [if_pos hstop]

/-- Witness for C9 at a concrete input: with 1 path already present at
AS 1 and count 0, the pop of the depth-1 edge (4, 5) stops the loop
immediately, leaving the state unchanged and the edge consumed. -/
theorem claim9_witness :
    exWQ.get PathPref.CUSTOMER = some ((4, 5), ⟨[(2, [(1, 2), (1, 3)])], [], []⟩) ∧
    (0 : Nat) < (exND.best_paths 1).length ∧
    exG1.drainPhase exAnnOne (some 1) 0 PathPref.CUSTOMER 5 exND exWQ [] =
      ⟨exND, ⟨[(2, [(1, 2), (1, 3)])], [], []⟩, [], true, true⟩ := by
  refine ⟨by decide, by decide, ?_⟩
  exact (claim9_early_stop exG1 exAnnOne 1 0 PathPref.CUSTOMER).2 4 exND exWQ []
    (4, 5) ⟨[(2, [(1, 2), (1, 3)])], [], []⟩ (by decide) (by decide)

/-! Claim C7: announcement validation. -/

theorem checkNeighbors_isOk_iff (g : ASGraph) (source : Nat) (l : List (Nat × List Nat)) :
    (checkNeighbors g source l).isOk = true ↔
      ∀ np ∈ l, (g.neighbors source).contains np.1 = true ∧ ¬ np.1 ∈ np.2 := by
  induction l with
  | nil => simp [checkNeighbors, Except.isOk, Except.toBool]
  | cons np rest ih =>
    unfold checkNeighbors
    by_cases h1 : (g.neighbors source).contains np.1 = true
    · have hc1 : ¬ ((! (g.neighbors source).contains np.1) = true) := by
        rw [h1]
        simp
      rw [if_neg hc1]
      by_cases h2 : np.2.contains np.1 = true
      · rw [if_pos h2]
        have hmem : np.1 ∈ np.2 := by
          rw [List.contains_eq_any_beq, List.any_eq_true] at h2
          obtain ⟨x, hx, hbeq⟩ := h2
          have hx2 : np.1 = x := by simpa using hbeq
          rwa [hx2]
        constructor
        · intro h
          simp [Except.isOk, Except.toBool] at h
        · intro hall
          exact absurd hmem (hall np (List.mem_cons_self np rest)).2
      · rw [if_neg h2]
        have hnmem : ¬ np.1 ∈ np.2 := by
          intro hm
          apply h2
          rw [List.contains_eq_any_beq, List.any_eq_true]
          exact ⟨np.1, hm, by simp⟩
        rw [ih]
        constructor
        · intro hall np2 hnp2
          rcases List.mem_cons.mp hnp2 with rfl | hnp3
          · exact ⟨h1, hnmem⟩
          · exact hall np2 hnp3
        · intro hall np2 hnp2
          exact hall np2 (List.mem_cons_of_mem np hnp2)
    · have hc1 : (! (g.neighbors source).contains np.1) = true := by
        rw [Bool.eq_false_iff.mpr h1]
        simp
      rw [if_pos hc1]
      constructor
      · intro h
        simp [Except.isOk, Except.toBool] at h
      · intro hall
        exact absurd (hall np (List.mem_cons_self np rest)).1 h1

theorem checkSources_isOk_iff (g : ASGraph) (l : List (Nat × List (Nat × List Nat))) :
    (checkSources g l).isOk = true ↔
      ∀ sp ∈ l, g.hasNode sp.1 = true ∧
        ∀ np ∈ sp.2, (g.neighbors sp.1).contains np.1 = true ∧ ¬ np.1 ∈ np.2 := by
  induction l with
  | nil => simp [checkSources, Except.isOk, Except.toBool]
  | cons sp rest ih =>
    unfold checkSources
    by_cases h1 : g.hasNode sp.1 = true
    · have hc1 : ¬ ((! g.hasNode sp.1) = true) := by
        rw [h1]
        simp
      rw [if_neg hc1]
      cases hcn : checkNeighbors g sp.1 sp.2 with
      | error e =>
        have hno : ¬ ∀ np ∈ sp.2, (g.neighbors sp.1).contains np.1 = true ∧ ¬ np.1 ∈ np.2 := by
          rw [← checkNeighbors_isOk_iff]
          rw [hcn]
          simp [Except.isOk, Except.toBool]
        constructor
        · intro h
          simp [Except.isOk, Except.toBool] at h
        · intro hall
          exact absurd (fun np hnp => (hall sp (List.mem_cons_self sp rest)).2 np hnp) hno
      | ok u =>
        have hyes : ∀ np ∈ sp.2, (g.neighbors sp.1).contains np.1 = true ∧ ¬ np.1 ∈ np.2 := by
          rw [← checkNeighbors_isOk_iff, hcn]
          rfl
        rw [ih]
        constructor
        · intro hall sp2 hsp2
          rcases List.mem_cons.mp hsp2 with rfl | hsp3
          · exact ⟨h1, hyes⟩
          · exact hall sp2 hsp3
        · intro hall sp2 hsp2
          exact hall sp2 (List.mem_cons_of_mem sp hsp2)
    · have hc1 : (! g.hasNode sp.1) = true := by
        rw [Bool.eq_false_iff.mpr h1]
        simp
      rw [if_pos hc1]
      constructor
      · intro h
        simp [Except.isOk, Except.toBool] at h
      · intro hall
        exact absurd (hall sp (List.mem_cons_self sp rest)).1 h1

theorem invalid_iff_not_ok (g : ASGraph) (ann : Announcement) :
    invalidAnnouncement g ann ↔ ¬ ((g.check_announcement ann).isOk = true) := by
  unfold ASGraph.check_announcement
  rw [checkSources_isOk_iff]
  unfold invalidAnnouncement
  constructor
  · rintro ⟨sp, hsp, hbad⟩ hall
    obtain ⟨h1, h2⟩ := hall sp hsp
    rcases hbad with hb | ⟨np, hnp, hb⟩
    · rw [h1] at hb
      simp at hb
    · obtain ⟨h3, h4⟩ := h2 np hnp
      rcases hb with hb | hb
      · rw [h3] at hb
        simp at hb
      · exact h4 hb
  · intro hnall
    by_contra hno
    push_neg at hno
    apply hnall
    intro sp hsp
    obtain ⟨hn, hrest⟩ := hno sp hsp
    refine ⟨by
      cases hres : g.hasNode sp.1
      · exact absurd hres hn
      · rfl, ?_⟩
    intro np hnp
    obtain ⟨hc, hm⟩ := hrest np hnp
    refine ⟨by
      cases hres : (g.neighbors sp.1).contains np.1
      · exact absurd hres hc
      · rfl, hm⟩

/-- CLAIM C7.  infer_paths fails, returning the validation error and no
per-inference state at all (the error carries nothing, and the graph is
untouched since check_announcement raises before any mutation), exactly
when the announcement has (a) a source not in the graph, (b) a
source/neighbor pair that is not an edge, or (c) a neighbor poisoned in
its own suffix; otherwise validation passes and inference proceeds to a
result. -/
theorem claim7_validation (g : ASGraph) (ann : Announcement) (s : Option Nat) (c : Nat)
    (i : Option NodeAccouncementData) (fuel : Nat) :
    ((g.infer_paths ann s c i fuel).isOk = false ↔ invalidAnnouncement g ann) ∧
    (∀ e, g.infer_paths ann s c i fuel = Except.error e →
      g.check_announcement ann = Except.error e) := by
  cases hchk : g.check_announcement ann with
  | error e =>
    have hinf : g.infer_paths ann s c i fuel = Except.error e := by
      unfold ASGraph.infer_paths
      rw [hchk]
    constructor
    · rw [hinf]
      constructor
      · intro _
        rw [invalid_iff_not_ok, hchk]
        simp [Except.isOk, Except.toBool]
      · intro _
        rfl
    · intro e2 he2
      rw [hinf] at he2
      injection he2 with he3
      rw [he3]
  | ok u =>
    have hinf : g.infer_paths ann s c i fuel =
        Except.ok ([PathPref.CUSTOMER, PathPref.PEER, PathPref.PROVIDER].foldl
          (runPhase ann s c fuel)
          ⟨{ g with announce := some ann }, NodeAccouncementData.empty, [], true⟩) := by
      unfold ASGraph.infer_paths
      rw [hchk]
    constructor
    · rw [hinf]
      constructor
      · intro h
        simp [Except.isOk, Except.toBool] at h
      · intro hinv
        rw [invalid_iff_not_ok, hchk] at hinv
        exact absurd rfl hinv
    · intro e2 he2
      rw [hinf] at he2
      exact absurd he2 (by simp)

/-- Witness for C7 at a concrete input: the two-source announcement on the
two-AS graph is valid (none of the three conditions holds), and inference
proceeds to a result. -/
theorem claim7_witness :
    (exG1.infer_paths exAnnBoth none 2 none 30).isOk = false ↔
      invalidAnnouncement exG1 exAnnBoth :=
  (claim7_validation exG1 exAnnBoth none 2 none 30).1

/-! Claim C10: infer_paths mutates the graph object. -/

theorem runPhase_announce (ann : Announcement) (s : Option Nat) (c : Nat) (fuel : Nat)
    (st : InferResult) (pref : PathPref) :
    (runPhase ann s c fuel st pref).graph.announce = st.graph.announce := rfl

/-- CLAIM C10.  infer_paths mutates the ASGraph object it is called on:
on every successful run the returned graph's stored announcement
reference has been overwritten with the new announcement (so a graph
whose announce field differed beforehand is not returned to its pre-call
state), and the work queue owned by the graph is the one the inference
added to and drained — concretely, an early-stopped inference on `exG3`
leaves a non-empty provider bucket in the graph-held queue (starting from
the empty queue the graph owned before the call), which is the state a
second inference on the same un-cloned graph object would start from. -/
theorem claim10_graph_mutation :
    (∀ (g : ASGraph) (ann : Announcement) (s : Option Nat) (c : Nat)
        (i : Option NodeAccouncementData) (fuel : Nat) (r : InferResult),
      g.infer_paths ann s c i fuel = Except.ok r → r.graph.announce = some ann) ∧
    ((exG3.infer_paths exAnnOne (some 2) 0 none 30).toOption.map
        (fun r => r.graph.workqueue) = some ⟨[], [], [(1, [(2, 3)])]⟩ ∧
      exG3.workqueue = WorkQueue.empty) := by
  constructor
  · intro g ann s c i fuel r hr
    unfold ASGraph.infer_paths at hr
    cases hchk : g.check_announcement ann with
    | error e =>
      rw [hchk] at hr
      exact absurd hr (by simp)
    | ok u =>
      rw [hchk] at hr
      injection hr with hr2
      rw [← hr2]
      rw [List.foldl_cons, List.foldl_cons, List.foldl_cons, List.foldl_nil]
      rw [runPhase_announce, runPhase_announce, runPhase_announce]
  · exact ⟨by decide, by decide⟩

/-- Witness for C10 at a concrete input: after the early-stopped inference
on `exG3` the graph-held announcement reference is the announcement that
was passed in. -/
theorem claim10_witness :
    (exG3.infer_paths exAnnOne (some 2) 0 none 30).toOption.map
      (fun r => r.graph.announce) = some (some exAnnOne) := by
  cases hres : exG3.infer_paths exAnnOne (some 2) 0 none 30 with
  | error e =>
    have hok : (exG3.infer_paths exAnnOne (some 2) 0 none 30).isOk = true := by decide
    rw [hres] at hok
    simp [Except.isOk, Except.toBool] at hok
  | ok r =>
    have hann := claim10_graph_mutation.1 exG3 exAnnOne (some 2) 0 none 30 r hres
    simp [Except.toOption, hann]

/-! Claim C1: the source-exclusion invariant fails when two sources are
announcement neighbors of each other. -/

/-- CLAIM C1 (divergence evidence).  On the valid announcement in which
ASes 1 and 2 — adjacent in `exG1` — are both sources and announce to each
other, infer_paths returns path_pref[1] = CUSTOMER and
path_pref[2] = PROVIDER: both sources import the announcement during
make_announcements seeding, contradicting the claimed invariant
path_pref[s] = UNKNOWN for every source s (which the drain loop, but not
the seeding loop, enforces with its source check). -/
theorem claim1_sources_import_when_adjacent :
    isSource exAnnBoth 1 = true ∧ isSource exAnnBoth 2 = true ∧
    (exG1.infer_paths exAnnBoth none 2 none 30).toOption.map
      (fun r => (r.node_ann.path_pref 1, r.node_ann.path_pref 2, r.fuel_ok)) =
      some (PathPref.CUSTOMER, PathPref.PROVIDER, true) := by
  refine ⟨rfl, rfl, by decide⟩

/-! Claim C2: the initial_node_announcement_data parameter is ignored. -/

/-- CLAIM C2 (divergence evidence).  infer_paths never reads its
initial_node_announcement_data argument: the run with any provided
initial state equals the run with none (the source always builds a fresh
NodeAccouncementData at line 296), and concretely a pre-programmed
CUSTOMER path at AS 7 is absent from the returned state — the returned
state is built on a fresh empty state, not on top of the provided one as
the parameter's documentation describes. -/
theorem claim2_initial_state_ignored :
    (∀ (g : ASGraph) (ann : Announcement) (s : Option Nat) (c : Nat)
        (nd : NodeAccouncementData) (fuel : Nat),
      g.infer_paths ann s c (some nd) fuel = g.infer_paths ann s c none fuel) ∧
    (exPre.path_pref 7 = PathPref.CUSTOMER ∧
      (exG1.infer_paths exAnnOne none 2 (some exPre) 30).toOption.map
        (fun r => (r.node_ann.path_pref 7, r.node_ann.best_paths 7)) =
        some (PathPref.UNKNOWN, [])) := by
  refine ⟨fun g ann s c nd fuel => rfl, by decide, by decide⟩

/-! Claim C6: lemmas about the nested grouping structure built by
make_announcements. -/

theorem alookup_adjust_inner (inner : List (Nat × List Nat)) (len src k : Nat) :
    alookup (inner.map (fun q => if q.1 = len then (q.1, q.2 ++ [src]) else q)) k =
      if k = len then (alookup inner len).map (fun v => v ++ [src])
      else alookup inner k := by
  induction inner with
  | nil => simp [alookup]
  | cons p rest ih =>
    by_cases hpu : p.1 = len
    · by_cases hku : k = len
      · simp [alookup, hpu, hku, ih]
      · simp [alookup, hpu, hku, ih, Ne.symm hku]
    · by_cases hpk : p.1 = k
      · have hku : ¬ k = len := fun h => hpu (hpk.trans h)
        simp [alookup, hpu, hpk, hku]
      · simp [alookup, hpu, hpk, ih]

theorem alookup_adjust_outer (outer : List (Nat × List (Nat × List Nat)))
    (nei len src k : Nat) :
    alookup (outer.map (fun q => if q.1 = nei then (q.1, innerInsert q.2 len src) else q)) k =
      if k = nei then (alookup outer nei).map (fun v => innerInsert v len src)
      else alookup outer k := by
  induction outer with
  | nil => simp [alookup]
  | cons p rest ih =>
    by_cases hpu : p.1 = nei
    · by_cases hku : k = nei
      · simp [alookup, hpu, hku, ih]
      · simp [alookup, hpu, hku, ih, Ne.symm hku]
    · by_cases hpk : p.1 = k
      · have hku : ¬ k = nei := fun h => hpu (hpk.trans h)
        simp [alookup, hpu, hpk, hku]
      · simp [alookup, hpu, hpk, ih]

theorem alookup_innerInsert (inner : List (Nat × List Nat)) (len src k : Nat) :
    alookup (innerInsert inner len src) k =
      if k = len then some (((alookup inner len).getD []) ++ [src])
      else alookup inner k := by
  unfold innerInsert
  by_cases h : (alookup inner len).isSome = true
  · rw [if_pos h, alookup_adjust_inner]
    by_cases hk : k = len
    · rw [if_pos hk, if_pos hk]
      obtain ⟨v, hv⟩ := Option.isSome_iff_exists.mp h
      rw [hv]
      rfl
    · rw [if_neg hk, if_neg hk]
  · rw [if_neg h, alookup_append]
    have hnone : alookup inner len = none := by
      cases hres : alookup inner len with
      | none => rfl
      | some v => rw [hres] at h; simp at h
    by_cases hk : k = len
    · subst hk
      rw [if_pos rfl, hnone]
      simp [Option.or, alookup]
    · rw [if_neg hk]
      cases hres : alookup inner k with
      | some v => simp [Option.or]
      | none => simp [Option.or, alookup, Ne.symm hk]

theorem alookup_groupedInsert (outer : List (Nat × List (Nat × List Nat)))
    (nei len src k : Nat) :
    alookup (groupedInsert outer nei len src) k =
      if k = nei then some (innerInsert ((alookup outer nei).getD []) len src)
      else alookup outer k := by
  unfold groupedInsert
  by_cases h : (alookup outer nei).isSome = true
  · rw [if_pos h, alookup_adjust_outer]
    by_cases hk : k = nei
    · rw [if_pos hk, if_pos hk]
      obtain ⟨v, hv⟩ := Option.isSome_iff_exists.mp h
      rw [hv]
      rfl
    · rw [if_neg hk, if_neg hk]
  · rw [if_neg h, alookup_append]
    have hnone : alookup outer nei = none := by
      cases hres : alookup outer nei with
      | none => rfl
      | some v => rw [hres] at h; simp at h
    by_cases hk : k = nei
    · subst hk
      rw [if_pos rfl, hnone]
      simp [Option.or, alookup]
    · rw [if_neg hk]
      cases hres : alookup outer k with
      | some v => simp [Option.or]
      | none => simp [Option.or, alookup, Ne.symm hk]

theorem srcsAt_buildFold (seeds : List Seed) :
    ∀ (acc : List (Nat × List (Nat × List Nat))) (nei len : Nat),
      (alookup ((alookup
          (seeds.foldl (fun a s => groupedInsert a s.2.1 s.2.2.length s.1) acc)
          nei).getD []) len).getD [] =
        (alookup ((alookup acc nei).getD []) len).getD [] ++
          ((seeds.filter (fun s => decide (s.2.1 = nei) && decide (s.2.2.length = len))).map
            (fun s => s.1)) := by
  induction seeds with
  | nil =>
    intro acc nei len
    simp
  | cons s rest ih =>
    intro acc nei len
    rw [List.foldl_cons, ih]
    have hstep : (alookup ((alookup (groupedInsert acc s.2.1 s.2.2.length s.1) nei).getD [])
          len).getD [] =
        (alookup ((alookup acc nei).getD []) len).getD [] ++
          (if s.2.1 = nei ∧ s.2.2.length = len then [s.1] else []) := by
      rw [alookup_groupedInsert]
      by_cases h1 : nei = s.2.1
      · subst h1
        rw [if_pos rfl]
        rw [Option.getD_some, alookup_innerInsert]
        by_cases h2 : len = s.2.2.length
        · rw [if_pos h2, if_pos ⟨rfl, h2.symm⟩, Option.getD_some, h2]
        · rw [if_neg h2, if_neg (fun hand => h2 hand.2.symm)]
          simp
      · rw [if_neg (fun he => h1 he), if_neg (fun hand => h1 hand.1.symm)]
        simp
    rw [hstep, List.append_assoc]
    congr 1
    rw [List.filter_cons]
    by_cases hq : (decide (s.2.1 = nei) && decide (s.2.2.length = len)) = true
    · have hand : s.2.1 = nei ∧ s.2.2.length = len := by
        rw [Bool.and_eq_true, decide_eq_true_eq, decide_eq_true_eq] at hq
        exact hq
      rw [if_pos hq, if_pos hand]
      simp
    · have hand : ¬ (s.2.1 = nei ∧ s.2.2.length = len) := by
        rw [Bool.and_eq_true, decide_eq_true_eq, decide_eq_true_eq] at hq
        exact hq
      rw [if_neg hq, if_neg hand]
      simp

theorem innerKey_isSome_buildFold (seeds : List Seed) :
    ∀ (acc : List (Nat × List (Nat × List Nat))) (nei k : Nat),
      ((alookup ((alookup
          (seeds.foldl (fun a s => groupedInsert a s.2.1 s.2.2.length s.1) acc)
          nei).getD []) k).isSome = true ↔
        ((alookup ((alookup acc nei).getD []) k).isSome = true ∨
          ∃ s ∈ seeds, s.2.1 = nei ∧ s.2.2.length = k)) := by
  induction seeds with
  | nil =>
    intro acc nei k
    simp
  | cons s rest ih =>
    intro acc nei k
    rw [List.foldl_cons, ih]
    have hstep : ((alookup ((alookup (groupedInsert acc s.2.1 s.2.2.length s.1) nei).getD [])
          k).isSome = true ↔
        ((alookup ((alookup acc nei).getD []) k).isSome = true ∨
          (s.2.1 = nei ∧ s.2.2.length = k))) := by
      rw [alookup_groupedInsert]
      by_cases h1 : nei = s.2.1
      · subst h1
        rw [if_pos rfl, Option.getD_some, alookup_innerInsert]
        by_cases h2 : k = s.2.2.length
        · rw [if_pos h2]
          simp [h2.symm]
        · rw [if_neg h2]
          have hlk : ¬ s.2.2.length = k := fun he => h2 he.symm
          simp [hlk]
      · rw [if_neg (fun he => h1 he)]
        have hno : ¬ (s.2.1 = nei ∧ s.2.2.length = k) := fun hand => h1 hand.1.symm
        simp [hno]
    rw [hstep]
    constructor
    · rintro ((ha | hc) | ⟨s2, hs2, hp⟩)
      · exact Or.inl ha
      · exact Or.inr ⟨s, List.mem_cons_self s rest, hc⟩
      · exact Or.inr ⟨s2, List.mem_cons_of_mem s hs2, hp⟩
    · rintro (ha | ⟨s2, hs2, hp⟩)
      · exact Or.inl (Or.inl ha)
      · rcases List.mem_cons.mp hs2 with rfl | hs3
        · exact Or.inl (Or.inr hp)
        · exact Or.inr ⟨s2, hs3, hp⟩

theorem keys_groupedInsert (outer : List (Nat × List (Nat × List Nat)))
    (nei len src : Nat) :
    (groupedInsert outer nei len src).map Prod.fst =
      if (alookup outer nei).isSome = true then outer.map Prod.fst
      else outer.map Prod.fst ++ [nei] := by
  unfold groupedInsert
  by_cases h : (alookup outer nei).isSome = true
  · rw [if_pos h, if_pos h, List.map_map]
    apply List.map_congr_left
    intro q hq
    by_cases hqn : q.1 = nei <;> simp [hqn]
  · rw [if_neg h, if_neg h, List.map_append]
    rfl

theorem keys_buildFold (seeds : List Seed) :
    ∀ (acc : List (Nat × List (Nat × List Nat))),
      ((seeds.foldl (fun a s => groupedInsert a s.2.1 s.2.2.length s.1) acc).map Prod.fst) =
        (seeds.map (fun s => s.2.1)).foldl
          (fun ks x => if ks.contains x then ks else ks ++ [x]) (acc.map Prod.fst) := by
  induction seeds with
  | nil =>
    intro acc
    rfl
  | cons s rest ih =>
    intro acc
    rw [List.foldl_cons, List.map_cons, List.foldl_cons, ih]
    congr 1
    rw [keys_groupedInsert]
    have hiff : ((alookup acc s.2.1).isSome = true) ↔
        ((acc.map Prod.fst).contains s.2.1 = true) := by
      constructor
      · intro h
        have hm := mem_keys_of_alookup_isSome _ _ h
        rw [List.contains_eq_any_beq, List.any_eq_true]
        exact ⟨s.2.1, hm, by simp⟩
      · intro h
        apply alookup_isSome_of_mem_keys
        rw [List.contains_eq_any_beq, List.any_eq_true] at h
        obtain ⟨x, hx, hbeq⟩ := h
        have hxe : s.2.1 = x := by simpa using hbeq
        rwa [hxe]
    by_cases h : (alookup acc s.2.1).isSome = true
    · rw [if_pos h, if_pos (hiff.mp h)]
    · rw [if_neg h, if_neg (fun hc => h (hiff.mpr hc))]

theorem keys_buildGrouped (seeds : List Seed) :
    (buildGrouped seeds).map Prod.fst = dedupFirst (seeds.map (fun s => s.2.1)) := by
  unfold buildGrouped dedupFirst
  exact keys_buildFold seeds []

theorem nodup_keys_buildFold (seeds : List Seed) :
    ∀ (acc : List (Nat × List (Nat × List Nat))), (acc.map Prod.fst).Nodup →
      ((seeds.foldl (fun a s => groupedInsert a s.2.1 s.2.2.length s.1) acc).map
        Prod.fst).Nodup := by
  induction seeds with
  | nil =>
    intro acc h
    exact h
  | cons s rest ih =>
    intro acc h
    rw [List.foldl_cons]
    apply ih
    rw [keys_groupedInsert]
    by_cases hc : (alookup acc s.2.1).isSome = true
    · rw [if_pos hc]
      exact h
    · rw [if_neg hc]
      rw [List.nodup_append]
      refine ⟨h, List.nodup_singleton _, ?_⟩
      intro x hx hx2
      simp at hx2
      subst hx2
      exact hc (alookup_isSome_of_mem_keys _ _ hx)

theorem assoc_entries {α : Type} (d : α) :
    ∀ (l : List (Nat × α)), (l.map Prod.fst).Nodup →
      l = (l.map Prod.fst).map (fun k => (k, (alookup l k).getD d)) := by
  intro l
  induction l with
  | nil => intro _; rfl
  | cons p rest ih =>
    intro hnd
    rw [List.map_cons, List.map_cons]
    rw [List.map_cons, List.nodup_cons] at hnd
    congr 1
    · cases p with
      | mk k v => simp [alookup]
    · have hrest := ih hnd.2
      conv_lhs => rw [hrest]
      apply List.map_congr_left
      intro k hk
      have hpk : ¬ p.1 = k := by
        intro he
        rw [he] at hnd
        exact hnd.1 hk
      simp [alookup, hpk]

theorem alookup_of_mem_of_nodup {α : Type} :
    ∀ (l : List (Nat × α)), (l.map Prod.fst).Nodup →
      ∀ (k : Nat) (v : α), (k, v) ∈ l → alookup l k = some v := by
  intro l
  induction l with
  | nil =>
    intro _ k v hm
    simp at hm
  | cons p rest ih =>
    intro hnd k v hm
    rw [List.map_cons, List.nodup_cons] at hnd
    rcases List.mem_cons.mp hm with he | hm2
    · rw [← he]
      simp [alookup]
    · have hpk : ¬ p.1 = k := by
        intro he2
        apply hnd.1
        rw [he2]
        exact List.mem_map.mpr ⟨(k, v), hm2, rfl⟩
      rw [alookup, if_neg hpk]
      exact ih hnd.2 k v hm2

theorem listMin_eq_some_iff (l : List Nat) (m : Nat) :
    listMin l = some m ↔ m ∈ l ∧ ∀ x ∈ l, m ≤ x := by
  constructor
  · exact listMin_spec l m
  · rintro ⟨hm, hle⟩
    cases hl : listMin l with
    | none =>
      rw [listMin_eq_none_iff] at hl
      subst hl
      simp at hm
    | some m0 =>
      obtain ⟨hm0, hle0⟩ := listMin_spec l m0 hl
      have h1 : m0 ≤ m := hle0 m hm
      have h2 : m ≤ m0 := hle m0 hm0
      rw [Nat.le_antisymm h1 h2]

theorem listMin_congr_mem (l1 l2 : List Nat) (h : ∀ x, x ∈ l1 ↔ x ∈ l2) :
    listMin l1 = listMin l2 := by
  cases hl : listMin l1 with
  | none =>
    rw [listMin_eq_none_iff] at hl
    subst hl
    cases hl2 : listMin l2 with
    | none => rfl
    | some m =>
      obtain ⟨hm, _⟩ := listMin_spec l2 m hl2
      exact absurd ((h m).mpr hm) (by simp)
  | some m =>
    obtain ⟨hm, hle⟩ := listMin_spec l1 m hl
    symm
    rw [listMin_eq_some_iff]
    exact ⟨(h m).mp hm, fun x hx => hle x ((h x).mpr hx)⟩

theorem foldl_flatMap_eq {α β γ : Type} (f : γ → List β) (g : α → β → α) (l : List γ) :
    ∀ (init : α), ((l.flatMap f).foldl g init) =
      l.foldl (fun st x => (f x).foldl g st) init := by
  induction l with
  | nil =>
    intro init
    rfl
  | cons x rest ih =>
    intro init
    rw [List.flatMap_cons, List.foldl_append, List.foldl_cons, ih]

theorem mem_of_mem_dedupFold (l : List Nat) :
    ∀ (ks : List Nat) (x : Nat),
      x ∈ l.foldl (fun a y => if a.contains y then a else a ++ [y]) ks →
      x ∈ ks ∨ x ∈ l := by
  induction l with
  | nil =>
    intro ks x h
    exact Or.inl h
  | cons y rest ih =>
    intro ks x h
    rw [List.foldl_cons] at h
    rcases ih _ x h with h2 | h2
    · by_cases hc : ks.contains y = true
      · rw [if_pos hc] at h2
        exact Or.inl h2
      · rw [if_neg hc] at h2
        rcases List.mem_append.mp h2 with h3 | h3
        · exact Or.inl h3
        · simp at h3
          subst h3
          exact Or.inr (List.mem_cons_self _ _)
    · exact Or.inr (List.mem_cons_of_mem _ h2)

theorem seedsFor_ann_lookup (g : ASGraph) (ann : Announcement) (pref : PathPref)
    (hwf : annWF ann) :
    ∀ s ∈ seedsFor g ann pref, annLookup ann s.1 s.2.1 = s.2.2 := by
  intro s hs
  unfold seedsFor at hs
  rw [List.mem_flatMap] at hs
  obtain ⟨sp, hsp, hs2⟩ := hs
  rw [List.mem_filterMap] at hs2
  obtain ⟨np, hnp, heq⟩ := hs2
  by_cases hp : prefD g sp.1 np.1 = pref
  · rw [if_pos hp] at heq
    injection heq with he
    subst he
    unfold annLookup
    rw [alookup_of_mem_of_nodup _ hwf.1 sp.1 sp.2 hsp, Option.getD_some,
      alookup_of_mem_of_nodup _ (hwf.2 sp hsp) np.1 np.2 hnp, Option.getD_some]
  · rw [if_neg hp] at heq
    exact absurd heq (by simp)

theorem minKey_inner_eq (seeds : List Seed) (nei : Nat) :
    minKeyOf ((alookup (buildGrouped seeds) nei).getD []) = minSeedLen seeds nei := by
  unfold minKeyOf minSeedLen
  apply listMin_congr_mem
  intro k
  constructor
  · intro hk
    have hsome := alookup_isSome_of_mem_keys _ _ hk
    have hiff := (innerKey_isSome_buildFold seeds [] nei k).mp hsome
    rcases hiff with habs | ⟨s, hs, hp1, hp2⟩
    · simp [alookup] at habs
    · rw [List.mem_map]
      refine ⟨s, ?_, hp2⟩
      unfold seedsAt
      rw [List.mem_filter]
      exact ⟨hs, by simp [hp1]⟩
  · intro hk
    rw [List.mem_map] at hk
    obtain ⟨s, hs, hlen⟩ := hk
    unfold seedsAt at hs
    rw [List.mem_filter] at hs
    have hp1 : s.2.1 = nei := by simpa using hs.2
    apply mem_keys_of_alookup_isSome
    exact (innerKey_isSome_buildFold seeds [] nei k).mpr (Or.inr ⟨s, hs.1, hp1, hlen⟩)

theorem srcs_at_min_eq (seeds : List Seed) (nei m : Nat) :
    (alookup ((alookup (buildGrouped seeds) nei).getD []) m).getD [] =
      ((seedsAt seeds nei).filter (fun s => decide (s.2.2.length = m))).map
        (fun s => s.1) := by
  have h := srcsAt_buildFold seeds [] nei m
  have hbase : (alookup ((alookup
      ([] : List (Nat × List (Nat × List Nat))) nei).getD []) m).getD [] = [] := by
    simp [alookup]
  rw [hbase] at h
  unfold buildGrouped
  rw [h, List.nil_append]
  congr 1
  unfold seedsAt
  rw [List.filter_filter]
  apply List.filter_congr
  intro s _
  rw [Bool.and_comm]

theorem groupStep_eq_applySeeds (g : ASGraph) (ann : Announcement) (pref : PathPref)
    (hwf : annWF ann) (nei : Nat) (st : NodeAccouncementData × WorkQueue) :
    groupStep g ann st (nei, (alookup (buildGrouped (seedsFor g ann pref)) nei).getD []) =
      ((seedsAt (seedsFor g ann pref) nei).filter
        (fun s => decide (s.2.2.length =
          (minSeedLen (seedsFor g ann pref) nei).getD 0))).foldl (applySeed g) st := by
  unfold groupStep
  show ((alookup ((alookup (buildGrouped (seedsFor g ann pref)) nei).getD [])
    ((minKeyOf ((alookup (buildGrouped (seedsFor g ann pref)) nei).getD [])).getD 0)).getD
      []).foldl (srcStep g ann nei) st = _
  rw [minKey_inner_eq, srcs_at_min_eq, List.foldl_map]
  apply List.foldl_ext
  intro st2 s hs
  have hs2 : s ∈ seedsAt (seedsFor g ann pref) nei := List.mem_of_mem_filter hs
  have hnei : s.2.1 = nei := by
    unfold seedsAt at hs2
    have := List.of_mem_filter hs2
    simpa using this
  have hseed : s ∈ seedsFor g ann pref := by
    unfold seedsAt at hs2
    exact List.mem_of_mem_filter hs2
  have hal := seedsFor_ann_lookup g ann pref hwf s hseed
  rw [hnei] at hal
  unfold srcStep applySeed
  rw [hal, ← hnei]

/-- CLAIM C6.  During seeding of a phase, the considered announcement
entries (source, neighbor, suffix) — those with
PathPref(source→neighbor) = pref — are grouped per neighbor by suffix
length, and the state and work queue are updated by applying update_paths
(with work enqueued on first-time updates) to exactly the seeds whose
suffix length is the minimum for their neighbor, per neighbor in first
occurrence order; seeds with longer suffixes contribute nothing to the
state, while the NEIGHBOR_ANNOUNCE trace contains an entry for every
considered seed, including the discarded ones. -/
theorem claim6_make_announcements (g : ASGraph) (ann : Announcement) (pref : PathPref)
    (nd : NodeAccouncementData) (wq : WorkQueue) (hwf : annWF ann) :
    ((g.make_announcements ann pref nd wq).2.2 =
      (seedsFor g ann pref).map (fun s => Event.neighborAnnounce s.1 s.2.1 pref s.2.2)) ∧
    ((g.make_announcements ann pref nd wq).1, (g.make_announcements ann pref nd wq).2.1) =
      (appliedSeeds (seedsFor g ann pref)).foldl (applySeed g) (nd, wq) := by
  constructor
  · rfl
  · show (buildGrouped (seedsFor g ann pref)).foldl (groupStep g ann) (nd, wq) = _
    have hnodup : ((buildGrouped (seedsFor g ann pref)).map Prod.fst).Nodup := by
      have := nodup_keys_buildFold (seedsFor g ann pref) [] (by simp)
      exact this
    have hrepr := assoc_entries ([] : List (Nat × List Nat))
      (buildGrouped (seedsFor g ann pref)) hnodup
    conv_lhs => rw [hrepr]
    rw [List.foldl_map, keys_buildGrouped]
    unfold appliedSeeds
    rw [foldl_flatMap_eq]
    apply List.foldl_ext
    intro st k _
    exact groupStep_eq_applySeeds g ann pref hwf k st

/-- Witness for C6 at a concrete input: the two-source announcement is a
well-formed dict of dicts, and the NEIGHBOR_ANNOUNCE trace of the
PROVIDER phase lists every considered seed. -/
theorem claim6_witness :
    annWF exAnnBoth ∧
    (exG1.make_announcements exAnnBoth PathPref.PROVIDER NodeAccouncementData.empty
        WorkQueue.empty).2.2 =
      (seedsFor exG1 exAnnBoth PathPref.PROVIDER).map
        (fun s => Event.neighborAnnounce s.1 s.2.1 PathPref.PROVIDER s.2.2) := by
  have hwf : annWF exAnnBoth := ⟨by decide, by decide⟩
  exact ⟨hwf, (claim6_make_announcements exG1 exAnnBoth PathPref.PROVIDER
    NodeAccouncementData.empty WorkQueue.empty hwf).1⟩

end BGPSim
